import Mathlib

/-!
Shallow embedding of the active-effect manager plugin: the effect handler's
actor/token CRUD operations over the host engine's embedded-document model,
the status-effect name list stored in settings, and the positional-array
legacy shims.  Pure data (strings, lists) stands for the host documents;
host create/update/delete calls are recorded explicitly so that theorems can
speak about which host APIs a call reaches.
-/

namespace ActiveEffectManager

/-- Host localization environment.  Modelled from the spec: "localization of
effect names" — the host i18n service (not part of the provided sources) is
represented as an arbitrary string-to-string localization function. -/
structure Env where
  loc : String → String

/-- Modelled from the spec: the host i18n lookup used by the handler
(`i18n(effectName)`); it applies the environment's localization function. -/
def i18n (env : Env) (s : String) : String := env.loc s

/-- Lowercase a string character by character: the case folding used by the
modelled case-insensitive comparison. -/
def lowerStr (s : String) : String := String.mk (s.data.map Char.toLower)

/-- Modelled from the spec: `isStringEquals`, the comparison used by every
name lookup, is "case/locale-insensitive" — two strings compare equal
exactly when their lowercase forms coincide.  (The real helper lives in the
library module that is not part of the provided sources.) -/
def isStringEquals (a b : String) : Bool := lowerStr a == lowerStr b

/-- The host's persisted active-effect document, restricted to the fields the
handler reads: the document id (`id` / `data._id`), the optional
document-level `name`, the display label `data.label`, and the
`data.disabled` flag. -/
structure ActiveEffect where
  id : String
  name : Option String := none
  label : String
  disabled : Bool := false
  deriving Repr, DecidableEq

/-- The plugin's transient Effect value object, restricted to the fields the
handler touches: display name, origin reference, overlay flag, custom id. -/
structure Effect where
  customId : String := ""
  name : String := ""
  origin : String := ""
  overlay : Bool := false
  deriving Repr, DecidableEq

/-- The embedded-effects state of a resolved actor: the actor id, the
embedded active-effect collection in iteration order, and the host's
fresh-id counter for newly created documents. -/
structure ActorState where
  id : String
  effects : List ActiveEffect
  nextId : Nat := 0
  deriving Repr, DecidableEq

/-- Outcome of one handler call against an actor: the returned value, the
actor state afterwards, and the arguments the call passed to the host
create/delete APIs (display labels of created documents, ids passed to
`deleteEmbeddedDocuments`).  Empty lists mean the host API was not called. -/
structure CallResult (α : Type) where
  result : α
  state : ActorState
  createdLabels : List String := []
  deletedIds : List String := []
  deriving Repr, DecidableEq

/-- Abnormal termination of a handler call: a TypeError from dereferencing an
undefined value, or an explicitly thrown error message. -/
inductive JSError where
  | typeError
  | errorMsg (msg : String)
  deriving Repr, DecidableEq

/-- `actor.deleteEmbeddedDocuments('ActiveEffect', ids)`: the host removes
every embedded effect whose id is listed and returns the removed documents
in collection order. -/
def deleteEmbeddedDocuments (ids : List String) (st : ActorState) :
    List ActiveEffect × ActorState :=
  (st.effects.filter (fun e => ids.contains e.id),
   { st with effects := st.effects.filter (fun e => !(ids.contains e.id)) })

/-- The document-shaped data handed to `createEmbeddedDocuments`, restricted
to the fields this development tracks. -/
structure ActiveEffectData where
  label : String
  origin : String := ""
  overlay : Bool := false
  deriving Repr, DecidableEq

/-- Modelled from the spec: `EffectSupport.convertToActiveEffectData` (not
part of the provided sources) converts the plain Effect value object into
the host's native active-effect document shape; the value object's display
name becomes the document's display label. -/
def convertToActiveEffectData (e : Effect) : ActiveEffectData :=
  { label := e.name, origin := e.origin, overlay := e.overlay }

/-- Modelled from the spec: `EffectSupport.convertActiveEffectToEffect` (not
part of the provided sources) converts a host document back into the plain
value-object shape; the document's display label becomes the value object's
name and its id becomes the custom identifier. -/
def convertActiveEffectToEffect (ae : ActiveEffect) : Effect :=
  { customId := ae.id, name := ae.label }

/-- `actor.createEmbeddedDocuments('ActiveEffect', [data])`: the host
persists one new embedded document with a fresh id, appends it to the
collection, and returns it. -/
def createEmbeddedDocument (d : ActiveEffectData) (st : ActorState) :
    ActiveEffect × ActorState :=
  let doc : ActiveEffect := { id := "ae" ++ toString st.nextId, label := d.label }
  (doc, { st with effects := st.effects ++ [doc], nextId := st.nextId + 1 })

/-- The display name the actor-side lookup loops compare:
`effectEntity.name ? effectEntity.name : effectEntity.data.label` (a missing
or empty document-level name falls back to the display label). -/
def effectNameOf (e : ActiveEffect) : String :=
  match e.name with
  | some n => if n = "" then e.label else n
  | none => e.label

/-- Match predicate of the actor-side name loops: entries whose display name
is empty are skipped (`continue`), the rest are compared with
`isStringEquals`. -/
def matchesActorName (target : String) (e : ActiveEffect) : Bool :=
  effectNameOf e != "" && isStringEquals (effectNameOf e) target

/-- `if (effectName) effectName = i18n(effectName)` — only truthy (non-empty)
names are localized. -/
def localizeIfTruthy (env : Env) (s : String) : String :=
  if s != "" then i18n env s else s

/-- `EffectHandler.findEffectByNameOnActor`: localize the name, return
undefined when the (localized) name is empty, otherwise scan the actor's
embedded effects in order and return the first entry whose display name
matches, stopping at the first hit (`break`). -/
def findEffectByNameOnActor (env : Env) (effectName : String)
    (effects : List ActiveEffect) : Option ActiveEffect :=
  let n := localizeIfTruthy env effectName
  if n = "" then none
  else effects.find? (matchesActorName n)

/-- `EffectHandler._findEffectByName`: no localization; scan the whole
collection, overwriting the candidate at every match (so the last match
wins), and return the value-object conversion of the candidate. -/
def _findEffectByName (effectName : String) (effects : List ActiveEffect) :
    Option Effect :=
  if effectName = "" then none
  else
    effects.foldl
      (fun acc e =>
        if matchesActorName effectName e then some (convertActiveEffectToEffect e)
        else acc)
      none

/-- `EffectHandler.hasEffectApplied`: true iff some embedded effect has a
label matching the raw (unlocalized) name and is not disabled. -/
def hasEffectApplied (effectName : String) (effects : List ActiveEffect) : Bool :=
  effects.any (fun e => isStringEquals e.label effectName && !e.disabled)

/-- `EffectHandler.hasEffectAppliedOnActor`: localize the name, then test
whether some embedded effect's label matches it, skipping disabled entries
unless `includeDisabled` is set. -/
def hasEffectAppliedOnActor (env : Env) (effectName : String)
    (effects : List ActiveEffect) (includeDisabled : Bool) : Bool :=
  let n := localizeIfTruthy env effectName
  effects.any (fun e =>
    if includeDisabled then isStringEquals e.label n
    else isStringEquals e.label n && !e.disabled)

/-- `EffectHandler.removeEffect`: find the first effect whose label is
strictly equal (`===`) to the raw name; with no match return undefined
without touching the host, otherwise delete exactly that document through
the host API and return the removed document. -/
def removeEffect (effectName : String) (st : ActorState) :
    CallResult (Option ActiveEffect) :=
  match st.effects.find? (fun e => e.label == effectName) with
  | none => { result := none, state := st }
  | some ae =>
      let (removed, st') := deleteEmbeddedDocuments [ae.id] st
      { result := removed.head?, state := st', deletedIds := [ae.id] }

/-- `EffectHandler.removeEffectOnActor`: localize the name, then find the
first effect whose label is strictly equal (`===`) to it; no match returns
undefined without a host call, otherwise exactly that document is deleted
and returned. -/
def removeEffectOnActor (env : Env) (effectName : String) (st : ActorState) :
    CallResult (Option ActiveEffect) :=
  let n := localizeIfTruthy env effectName
  match st.effects.find? (fun e => e.label == n) with
  | none => { result := none, state := st }
  | some ae =>
      let (removed, st') := deleteEmbeddedDocuments [ae.id] st
      { result := removed.head?, state := st', deletedIds := [ae.id] }

/-- `EffectHandler.removeEffectFromIdOnActor`: an empty (falsy) id returns
undefined with no host call; otherwise find the effect with that id,
returning undefined when absent, else deleting exactly that document and
returning it. -/
def removeEffectFromIdOnActor (effectId : String) (st : ActorState) :
    CallResult (Option ActiveEffect) :=
  if effectId = "" then { result := none, state := st }
  else
    match st.effects.find? (fun e => e.id == effectId) with
    | none => { result := none, state := st }
    | some ae =>
        let (removed, st') := deleteEmbeddedDocuments [ae.id] st
        { result := removed.head?, state := st', deletedIds := [ae.id] }

/-- `EffectHandler.addEffect` after the undefined-data guard (see
`addEffect`): resolve the candidate value object (conversion of a raw-name
match on the actor, else the supplied effect data), default the origin, fill
the value object's origin/overlay from the data, then search for an effect
matching the localized name: if one is present return undefined without
creating, otherwise create the converted document and return it.
(`_handleIntegrations` only prepares the change list, which this development
does not track.) -/
def addEffectCore (env : Env) (effectName : String) (effectData : Effect)
    (origin : String) (overlay : Bool) (st : ActorState) :
    CallResult (Option ActiveEffect) :=
  let effect0 := _findEffectByName effectName st.effects
  let eff := match effect0 with
    | some e => e
    | none => effectData
  let origin1 := if origin = "" then "Actor." ++ st.id else origin
  let eff := { eff with
    origin := if effectData.origin != "" then effectData.origin else origin1,
    overlay := effectData.overlay || overlay }
  match findEffectByNameOnActor env effectName st.effects with
  | some _ => { result := none, state := st }
  | none =>
      let d := convertToActiveEffectData eff
      let (doc, st') := createEmbeddedDocument d st
      { result := some doc, state := st', createdLabels := [d.label] }

/-- `EffectHandler.addEffect`: when called without effect data the handler
dereferences the missing object (`effectData.origin`, and
`_handleIntegrations` of a missing candidate) and throws a TypeError before
the duplicate check can return; with effect data it behaves as
`addEffectCore`. -/
def addEffect (env : Env) (effectName : String) (effectData : Option Effect)
    (origin : String) (overlay : Bool) (st : ActorState) :
    Except JSError (CallResult (Option ActiveEffect)) :=
  match effectData with
  | none => .error .typeError
  | some ed => .ok (addEffectCore env effectName ed origin overlay st)

/-- `EffectHandler.addEffectOnActor`: localize the name; with no effect value
object return undefined without any host call; otherwise default the origin,
fill origin/overlay, search for an effect matching the (re-)localized name
and return undefined without creating when one is found, else create the
converted document and return it. -/
def addEffectOnActor (env : Env) (effectName : String) (origin : String)
    (overlay : Bool) (effect : Option Effect) (st : ActorState) :
    CallResult (Option ActiveEffect) :=
  let n := localizeIfTruthy env effectName
  match effect with
  | none => { result := none, state := st }
  | some e =>
      let origin1 := if origin = "" then "Actor." ++ st.id else origin
      let e := { e with
        origin := if e.origin != "" then e.origin else origin1,
        overlay := e.overlay || overlay }
      match findEffectByNameOnActor env n st.effects with
      | some _ => { result := none, state := st }
      | none =>
          let d := convertToActiveEffectData e
          let (doc, st') := createEmbeddedDocument d st
          { result := some doc, state := st', createdLabels := [d.label] }

/-- Update the disabled flag of the effect with the given id
(`activeEffect.update({ disabled: d })` on the host document). -/
def setDisabled (effectId : String) (d : Bool) (st : ActorState) : ActorState :=
  { st with
    effects := st.effects.map (fun e =>
      if e.id == effectId then { e with disabled := d } else e) }

/-- `EffectHandler.toggleEffectFromIdOnActor` (the current handler; the older
duplicate among the unnamed sources additionally deletes when a core
statusId flag is set): look the effect up by id — a missing effect makes the
later delete/update dereference undefined and throw — then delete it when
`alwaysDelete` is set, otherwise force-enable, force-disable, or flip the
disabled flag; each branch returns whether the host call yielded a document
(`!!deleted` / `!!updated`), which the host model answers positively. -/
def toggleEffectFromIdOnActor (effectId : String)
    (alwaysDelete forceEnabled forceDisabled : Bool) (st : ActorState) :
    Except JSError (Bool × ActorState) :=
  match st.effects.find? (fun e => e.id == effectId) with
  | none => .error .typeError
  | some ae =>
      if alwaysDelete then
        .ok (true, { st with effects := st.effects.filter (fun e => e.id != ae.id) })
      else if forceEnabled && ae.disabled then
        .ok (true, setDisabled ae.id false st)
      else if forceDisabled && !ae.disabled then
        .ok (true, setDisabled ae.id true st)
      else
        .ok (true, setDisabled ae.id (!ae.disabled) st)

/-- The resolvable actors (`FoundryHelpers.getActorByUuid`): an association
of actor uuid to actor state. -/
abbrev World := List (String × ActorState)

/-- Point update of a world at a uuid. -/
def updateWorld (w : World) (uuid : String) (st : ActorState) : World :=
  w.map (fun p => if p.1 == uuid then (uuid, st) else p)

/-- `EffectHandler.toggleEffect`: for each uuid in order, remove the effect
by name when `hasEffectApplied` holds, else add it via `addEffect` with
origin `Actor.<id>`; finally return true.  An unresolvable uuid makes the
handler dereference undefined (`actor.id`) and throw. -/
def toggleEffect (env : Env) (effectName : String) (overlay : Bool)
    (uuids : List String) (effectData : Option Effect) (w : World) :
    Except JSError (Bool × World) :=
  match uuids with
  | [] => .ok (true, w)
  | u :: rest =>
      match w.lookup u with
      | none => .error .typeError
      | some st =>
          if hasEffectApplied effectName st.effects then
            toggleEffect env effectName overlay rest effectData
              (updateWorld w u (removeEffect effectName st).state)
          else
            match addEffect env effectName effectData ("Actor." ++ st.id) overlay st with
            | .error err => .error err
            | .ok cr =>
                toggleEffect env effectName overlay rest effectData
                  (updateWorld w u cr.state)

/-- One uuid's state transition inside `toggleEffect` when effect data is
supplied: the removal path when `hasEffectApplied` holds, the add path
otherwise. -/
def toggleStep (env : Env) (effectName : String) (overlay : Bool)
    (effectData : Effect) (st : ActorState) : ActorState :=
  if hasEffectApplied effectName st.effects then (removeEffect effectName st).state
  else (addEffectCore env effectName effectData ("Actor." ++ st.id) overlay st).state

/-- The world after `toggleEffect` has processed the given uuids, expressed
as a fold of `toggleStep`. -/
def toggleFold (env : Env) (effectName : String) (overlay : Bool)
    (effectData : Effect) (uuids : List String) (w : World) : World :=
  uuids.foldl
    (fun w' u =>
      match w'.lookup u with
      | some st => updateWorld w' u (toggleStep env effectName overlay effectData st)
      | none => w')
    w

/-- A resolved token: its id, its scene id, and its actor's state (the
handler reads and writes `token.actor.data.effects`). -/
structure TokenState where
  tokenId : String
  sceneId : String
  actor : ActorState
  deriving Repr, DecidableEq

/-- Match predicate of the token-side name loop: the entry's `data.label`
(entries with an empty label are skipped), compared with `isStringEquals`. -/
def matchesTokenName (target : String) (e : ActiveEffect) : Bool :=
  e.label != "" && isStringEquals e.label target

/-- `EffectHandler.findEffectByNameOnToken`: localize the name, return
undefined when the (localized) name is empty, else return the first label
match over the token actor's effects, stopping at the first hit. -/
def findEffectByNameOnToken (env : Env) (effectName : String)
    (effects : List ActiveEffect) : Option ActiveEffect :=
  let n := localizeIfTruthy env effectName
  if n = "" then none
  else effects.find? (matchesTokenName n)

/-- `EffectHandler.addEffectOnToken`: localize the name; nothing happens
without an effect value object; otherwise default the origin from the
token's actor, fill origin/overlay, and search by the (re-)localized name:
when a matching effect is already present that very document is returned
with no create call; otherwise the converted document is created and
returned.  The resulting state is the token actor's state. -/
def addEffectOnToken (env : Env) (effectName : String) (origin : String)
    (overlay : Bool) (effect : Option Effect) (tst : TokenState) :
    CallResult (Option ActiveEffect) :=
  let n := localizeIfTruthy env effectName
  match effect with
  | none => { result := none, state := tst.actor }
  | some e =>
      let origin1 := if origin = "" then "Actor." ++ tst.actor.id else origin
      let e := { e with
        origin := if e.origin != "" then e.origin else origin1,
        overlay := e.overlay || overlay }
      match findEffectByNameOnToken env n tst.actor.effects with
      | some f => { result := some f, state := tst.actor }
      | none =>
          let d := convertToActiveEffectData e
          let (doc, st') := createEmbeddedDocument d tst.actor
          { result := some doc, state := st', createdLabels := [d.label] }

/-- The default status-effect name list (`_defaultStatusEffectNames`):
empty. -/
def _defaultStatusEffectNames : List String := []

/-- JS `[...new Set(array)]`: keep the first occurrence of each element, in
order, tracked through an accumulator of already-seen values. -/
def dedupFirstAux : List String → List String → List String
  | [], _ => []
  | x :: xs, seen =>
      if seen.contains x then dedupFirstAux xs seen
      else x :: dedupFirstAux xs (x :: seen)

/-- JS `[...new Set(array)]` on the whole list. -/
def dedupFirst (l : List String) : List String := dedupFirstAux l []

/-- `API.addStatusEffect`: append the name to the stored list, remove
duplicates (`[...new Set(...)]`), and store the result. -/
def addStatusEffect (stored : List String) (name : String) : List String :=
  dedupFirst (stored ++ [name])

/-- `API.removeStatusEffect`: store the list with every entry equal to the
given name filtered out. -/
def removeStatusEffect (stored : List String) (name : String) : List String :=
  stored.filter (fun s => s != name)

/-- `API.resetStatusEffects`: store the default (empty) list. -/
def resetStatusEffects (_stored : List String) : List String :=
  _defaultStatusEffectNames

/-- `API.isStatusEffect`: membership (`includes`) in the stored list. -/
def isStatusEffect (stored : List String) (name : String) : Bool :=
  stored.contains name

/-- Dynamic argument values handed to the positional-array legacy shims. -/
inductive JSVal where
  | vStr (s : String)
  | vBool (b : Bool)
  | vStrList (l : List String)
  | vEffect (e : Effect)
  | vUndef
  deriving Repr, DecidableEq

/-- `Array.isArray` applied to a rest parameter: a rest parameter is always
an Array, so on the embedded representation (a Lean list) the test is
constantly true. -/
def jsIsArray (_args : List JSVal) : Bool := true

/-- The uuid level of `removeEffect` as the legacy shim reaches it: resolve
the actor — an unresolvable uuid makes `actor.data` dereference undefined —
and run the name-based removal. -/
def removeEffectW (effectName uuid : String) (w : World) :
    Except JSError (Option ActiveEffect × World) :=
  match w.lookup uuid with
  | none => .error .typeError
  | some st =>
      let r := removeEffect effectName st
      .ok (r.result, updateWorld w uuid r.state)

/-- `EffectHandler.toggleEffectArr`: guard `Array.isArray(inAttributes)`
(throwing the "must be of type array" error when it fails), destructure the
first five positions, and delegate to `toggleEffect`.  Argument shapes
outside the typed fragment of this embedding are left unmodelled
(`none`). -/
def toggleEffectArr (env : Env) (args : List JSVal) (w : World) :
    Option (Except JSError (Bool × World)) :=
  if jsIsArray args then
    match args with
    | [JSVal.vStr n, JSVal.vBool ov, JSVal.vStrList us, _, JSVal.vEffect ed] =>
        some (toggleEffect env n ov us (some ed) w)
    | [JSVal.vStr n, JSVal.vBool ov, JSVal.vStrList us, _, JSVal.vUndef] =>
        some (toggleEffect env n ov us none w)
    | _ => none
  else some (.error (.errorMsg "toggleEffectArr | inAttributes must be of type array"))

/-- `API.removeEffectArr`: guard `Array.isArray(inAttributes)`, destructure
the effect name and uuid, and delegate to the handler's `removeEffect`.
Argument shapes outside the typed fragment of this embedding are left
unmodelled (`none`). -/
def removeEffectArr (args : List JSVal) (w : World) :
    Option (Except JSError (Option ActiveEffect × World)) :=
  if jsIsArray args then
    match args with
    | [JSVal.vStr n, JSVal.vStr u] => some (removeEffectW n u w)
    | _ => none
  else some (.error (.errorMsg "removeEffectArr | inAttributes must be of type array"))

/-- The identity localization environment (no translation installed). -/
def idEnv : Env := { loc := fun s => s }

end ActiveEffectManager

namespace ActiveEffectManager

/-! ### Helper lemmas about the list combinators the loops compile to -/

theorem find?_eq_head?_filter {α : Type} (p : α → Bool) (l : List α) :
    l.find? p = (l.filter p).head? := by
  induction l with
  | nil => rfl
  | cons x xs ih =>
      cases h : p x with
      | true =>
          rw [List.find?_cons_of_pos _ h, List.filter_cons]
          simp only [h, if_true, List.head?_cons]
      | false =>
          have h' : ¬ p x = true := by simp [h]
          rw [List.find?_cons_of_neg _ h', List.filter_cons, if_neg h', ih]

theorem foldl_overwrite {α β : Type} (p : α → Bool) (f : α → β) (l : List α)
    (acc : Option β) :
    l.foldl (fun a e => if p e then some (f e) else a) acc
      = match (l.filter p).getLast? with
        | some e => some (f e)
        | none => acc := by
  induction l generalizing acc with
  | nil => rfl
  | cons x xs ih =>
      cases h : p x with
      | true =>
          simp only [List.foldl_cons, List.filter_cons, h, if_true, ih]
          cases hfl : xs.filter p with
          | nil => simp [hfl]
          | cons y ys =>
              simp only [hfl, List.getLast?_cons_cons]
              cases hg : (y :: ys).getLast? with
              | none =>
                  exact absurd hg (by simp)
              | some e => rfl
      | false =>
          have h' : ¬ p x = true := by simp [h]
          simp only [List.foldl_cons]
          rw [ih, List.filter_cons, if_neg h', if_neg h']

theorem filter_id_single (l : List ActiveEffect) (ae : ActiveEffect)
    (hn : (l.map (fun e => e.id)).Nodup) (hm : ae ∈ l) :
    l.filter (fun e => e.id == ae.id) = [ae] := by
  induction l with
  | nil => cases hm
  | cons x xs ih =>
      have hn' : x.id ∉ xs.map (fun e => e.id) ∧ (xs.map (fun e => e.id)).Nodup := by
        simpa using hn
      rcases List.mem_cons.mp hm with h | h
      · subst h
        have hrest : xs.filter (fun e => e.id == ae.id) = [] := by
          rw [List.filter_eq_nil_iff]
          intro e he hbe
          exact hn'.1 (by
            have : e.id = ae.id := by simpa using hbe
            rw [← this]
            exact List.mem_map.mpr ⟨e, he, rfl⟩)
        simp [List.filter_cons, hrest]
      · have hxne : (x.id == ae.id) = false := by
          apply beq_eq_false_iff_ne.mpr
          intro hcontra
          exact hn'.1 (by
            rw [hcontra]
            exact List.mem_map.mpr ⟨ae, h, rfl⟩)
        simp [List.filter_cons, hxne, ih hn'.2 h]

theorem deleteEmbedded_single (st : ActorState) (ae : ActiveEffect)
    (hn : (st.effects.map (fun e => e.id)).Nodup) (hm : ae ∈ st.effects) :
    deleteEmbeddedDocuments [ae.id] st
      = ([ae], { st with effects := st.effects.filter (fun e => !(e.id == ae.id)) }) := by
  unfold deleteEmbeddedDocuments
  have hc : ∀ e : ActiveEffect, ([ae.id].contains e.id) = (e.id == ae.id) := by
    intro e
    simp only [List.contains_cons, List.contains_nil, Bool.or_false]
  have h1 : st.effects.filter (fun e => [ae.id].contains e.id)
      = st.effects.filter (fun e => e.id == ae.id) := by
    apply List.filter_congr
    intro e _
    exact hc e
  have h2 : st.effects.filter (fun e => !([ae.id].contains e.id))
      = st.effects.filter (fun e => !(e.id == ae.id)) := by
    apply List.filter_congr
    intro e _
    rw [hc e]
  rw [h1, h2, filter_id_single st.effects ae hn hm]

end ActiveEffectManager

namespace ActiveEffectManager

/-! ### Status-effect list lemmas -/

theorem contains_eq_true_iff (seen : List String) (x : String) :
    seen.contains x = true ↔ x ∈ seen :=
  List.elem_iff

theorem mem_dedupFirstAux (l : List String) :
    ∀ (seen : List String) (y : String),
      y ∈ dedupFirstAux l seen ↔ y ∈ l ∧ y ∉ seen := by
  induction l with
  | nil =>
      intro seen y
      simp [dedupFirstAux]
  | cons x xs ih =>
      intro seen y
      by_cases hx : x ∈ seen
      · rw [dedupFirstAux, if_pos ((contains_eq_true_iff seen x).mpr hx), ih]
        constructor
        · rintro ⟨hy, hys⟩
          exact ⟨List.mem_cons_of_mem _ hy, hys⟩
        · rintro ⟨hy, hys⟩
          rcases List.mem_cons.mp hy with rfl | hy'
          · exact absurd hx hys
          · exact ⟨hy', hys⟩
      · rw [dedupFirstAux,
          if_neg (fun hc => hx ((contains_eq_true_iff seen x).mp hc))]
        simp only [List.mem_cons, ih]
        constructor
        · rintro (rfl | ⟨hy, hys⟩)
          · exact ⟨Or.inl rfl, hx⟩
          · exact ⟨Or.inr hy, fun h => hys (Or.inr h)⟩
        · rintro ⟨rfl | hy, hys⟩
          · exact Or.inl rfl
          · by_cases hyx : y = x
            · exact Or.inl hyx
            · exact Or.inr ⟨hy, fun h => h.elim hyx hys⟩

theorem dedupFirstAux_sublist (l : List String) :
    ∀ seen : List String, (dedupFirstAux l seen).Sublist l := by
  induction l with
  | nil =>
      intro seen
      simp [dedupFirstAux]
  | cons x xs ih =>
      intro seen
      by_cases hx : x ∈ seen
      · rw [dedupFirstAux, if_pos ((contains_eq_true_iff seen x).mpr hx)]
        exact (ih seen).cons x
      · rw [dedupFirstAux,
          if_neg (fun hc => hx ((contains_eq_true_iff seen x).mp hc))]
        exact (ih (x :: seen)).cons₂ x

theorem dedupFirstAux_nodup (l : List String) :
    ∀ seen : List String, (dedupFirstAux l seen).Nodup := by
  induction l with
  | nil =>
      intro seen
      simp [dedupFirstAux]
  | cons x xs ih =>
      intro seen
      by_cases hx : x ∈ seen
      · rw [dedupFirstAux, if_pos ((contains_eq_true_iff seen x).mpr hx)]
        exact ih seen
      · rw [dedupFirstAux,
          if_neg (fun hc => hx ((contains_eq_true_iff seen x).mp hc))]
        refine List.nodup_cons.mpr ⟨?_, ih (x :: seen)⟩
        intro hmem
        exact ((mem_dedupFirstAux xs (x :: seen) x).mp hmem).2 (List.mem_cons_self x seen)

theorem dedupFirstAux_indexOf (l : List String) :
    ∀ (seen : List String) (x y : String),
      x ∈ dedupFirstAux l seen → y ∈ dedupFirstAux l seen →
      ((dedupFirstAux l seen).indexOf x ≤ (dedupFirstAux l seen).indexOf y ↔
        l.indexOf x ≤ l.indexOf y) := by
  induction l with
  | nil =>
      intro seen x y hx
      cases hx
  | cons a xs ih =>
      intro seen x y hx hy
      by_cases ha : a ∈ seen
      · have hred : dedupFirstAux (a :: xs) seen = dedupFirstAux xs seen := by
          rw [dedupFirstAux, if_pos ((contains_eq_true_iff seen a).mpr ha)]
        rw [hred] at hx hy ⊢
        have hx' := (mem_dedupFirstAux xs seen x).mp hx
        have hy' := (mem_dedupFirstAux xs seen y).mp hy
        have hxa : a ≠ x := fun h => hx'.2 (h ▸ ha)
        have hya : a ≠ y := fun h => hy'.2 (h ▸ ha)
        rw [List.indexOf_cons_ne _ hxa, List.indexOf_cons_ne _ hya,
          Nat.succ_le_succ_iff]
        exact ih seen x y hx hy
      · have hred : dedupFirstAux (a :: xs) seen = a :: dedupFirstAux xs (a :: seen) := by
          rw [dedupFirstAux,
            if_neg (fun hc => ha ((contains_eq_true_iff seen a).mp hc))]
        rw [hred] at hx hy ⊢
        by_cases hxa : x = a
        · subst hxa
          rw [List.indexOf_cons_self]
          simp [Nat.zero_le]
        · have hx' : x ∈ dedupFirstAux xs (a :: seen) := by
            rcases List.mem_cons.mp hx with h | h
            · exact absurd h hxa
            · exact h
          by_cases hya : y = a
          · subst hya
            rw [List.indexOf_cons_self, List.indexOf_cons_self,
              List.indexOf_cons_ne _ (fun h => hxa h.symm),
              List.indexOf_cons_ne _ (fun h => hxa h.symm)]
            exact iff_of_false (Nat.not_succ_le_zero _) (Nat.not_succ_le_zero _)
          · have hy' : y ∈ dedupFirstAux xs (a :: seen) := by
              rcases List.mem_cons.mp hy with h | h
              · exact absurd h hya
              · exact h
            rw [List.indexOf_cons_ne _ (fun h => hxa h.symm),
              List.indexOf_cons_ne _ (fun h => hya h.symm),
              List.indexOf_cons_ne _ (fun h => hxa h.symm),
              List.indexOf_cons_ne _ (fun h => hya h.symm),
              Nat.succ_le_succ_iff, Nat.succ_le_succ_iff]
            exact ih (a :: seen) x y hx' hy'

end ActiveEffectManager

namespace ActiveEffectManager

/-- C6: `addStatusEffect` stores the pushed-then-deduplicated list: the
result has no duplicates, is a subsequence of the stored list with the name
appended (so relative order is preserved), contains exactly the elements of
that appended list, and orders them by first occurrence; `removeStatusEffect`
stores the list with exactly the entries equal to the given name removed and
all other entries in their original order. -/
theorem addStatusEffect_removeStatusEffect_spec
    (stored : List String) (name : String) :
    (addStatusEffect stored name).Nodup
    ∧ (addStatusEffect stored name).Sublist (stored ++ [name])
    ∧ (∀ x, x ∈ addStatusEffect stored name ↔ x ∈ stored ++ [name])
    ∧ (∀ x y, x ∈ addStatusEffect stored name → y ∈ addStatusEffect stored name →
        ((addStatusEffect stored name).indexOf x ≤ (addStatusEffect stored name).indexOf y
          ↔ (stored ++ [name]).indexOf x ≤ (stored ++ [name]).indexOf y))
    ∧ (∀ x, x ∈ removeStatusEffect stored name ↔ x ∈ stored ∧ x ≠ name)
    ∧ (removeStatusEffect stored name).Sublist stored := by
  refine ⟨dedupFirstAux_nodup _ [], dedupFirstAux_sublist _ [], ?_, ?_, ?_, ?_⟩
  · intro x
    rw [addStatusEffect, dedupFirst, mem_dedupFirstAux]
    simp
  · intro x y hx hy
    exact dedupFirstAux_indexOf (stored ++ [name]) [] x y hx hy
  · intro x
    rw [removeStatusEffect, List.mem_filter]
    simp
  · exact List.filter_sublist stored

/-- Witness for C6 at a concrete list: adding "a" to ["a", "b"] keeps "b"
before the deduplicated "a", matching the order of first occurrence. -/
theorem addStatusEffect_removeStatusEffect_spec_witness :
    ("b" ∈ addStatusEffect ["a", "b"] "a") ∧ ("a" ∈ addStatusEffect ["a", "b"] "a")
    ∧ ((addStatusEffect ["a", "b"] "a").indexOf "b" ≤ (addStatusEffect ["a", "b"] "a").indexOf "a"
        ↔ (["a", "b"] ++ ["a"]).indexOf "b" ≤ (["a", "b"] ++ ["a"]).indexOf "a") :=
  ⟨by decide, by decide,
    (addStatusEffect_removeStatusEffect_spec ["a", "b"] "a").2.2.2.1 "b" "a"
      (by decide) (by decide)⟩

/-- C7: right after `addStatusEffect(name)` the name is a status effect;
right after `removeStatusEffect(name)` it is not; after `resetStatusEffects`
no name is a status effect, because the default list is empty. -/
theorem isStatusEffect_after_mutations (stored : List String) (name m : String) :
    isStatusEffect (addStatusEffect stored name) name = true
    ∧ isStatusEffect (removeStatusEffect stored name) name = false
    ∧ isStatusEffect (resetStatusEffects stored) m = false := by
  refine ⟨?_, ?_, rfl⟩
  · rw [isStatusEffect, contains_eq_true_iff, addStatusEffect, dedupFirst,
      mem_dedupFirstAux]
    simp
  · rw [isStatusEffect]
    rw [show (false : Bool) = decide False by rfl]
    rw [Bool.eq_iff_iff]
    rw [contains_eq_true_iff, removeStatusEffect, List.mem_filter]
    simp

end ActiveEffectManager

namespace ActiveEffectManager

/-- C3: with the effect present on the actor, `toggleEffectFromIdOnActor` is
a three-branch toggle: `alwaysDelete` deletes the document and returns
whether the deletion yielded a document; otherwise `forceEnabled` on a
disabled effect clears `disabled`; otherwise `forceDisabled` on an enabled
effect sets `disabled`; in every remaining case the flag is flipped; each
update branch returns true exactly when the host update yielded the updated
document, which in this host model it does. -/
theorem toggleEffectFromIdOnActor_branches
    (effectId : String) (aD fE fD : Bool) (st : ActorState) (ae : ActiveEffect)
    (hfind : st.effects.find? (fun e => e.id == effectId) = some ae) :
    (aD = true →
      toggleEffectFromIdOnActor effectId aD fE fD st =
        .ok (true, { st with effects := st.effects.filter (fun e => e.id != ae.id) }))
    ∧ (aD = false → fE = true → ae.disabled = true →
        toggleEffectFromIdOnActor effectId aD fE fD st =
          .ok (true, setDisabled ae.id false st))
    ∧ (aD = false → ¬(fE = true ∧ ae.disabled = true) → fD = true → ae.disabled = false →
        toggleEffectFromIdOnActor effectId aD fE fD st =
          .ok (true, setDisabled ae.id true st))
    ∧ (aD = false → ¬(fE = true ∧ ae.disabled = true) → ¬(fD = true ∧ ae.disabled = false) →
        toggleEffectFromIdOnActor effectId aD fE fD st =
          .ok (true, setDisabled ae.id (!ae.disabled) st)) := by
  refine ⟨?_, ?_, ?_, ?_⟩
  · intro hA
    rw [toggleEffectFromIdOnActor, hfind]
    simp [hA]
  · intro hA hE hdis
    rw [toggleEffectFromIdOnActor, hfind]
    simp [hA, hE, hdis]
  · intro hA hne hD hdis
    rw [toggleEffectFromIdOnActor, hfind]
    simp [hA, hne, hD, hdis]
  · intro hA hne1 hne2
    rw [toggleEffectFromIdOnActor, hfind]
    simp [hA, hne1, hne2]

/-- Witness for C3: deleting effect "e1" via `alwaysDelete` on a concrete
actor succeeds and reports true. -/
theorem toggleEffectFromIdOnActor_branches_witness :
    ([{ id := "e1", label := "foo" }] : List ActiveEffect).find? (fun e => e.id == "e1")
        = some { id := "e1", label := "foo" }
    ∧ toggleEffectFromIdOnActor "e1" true false false
        { id := "a1", effects := [{ id := "e1", label := "foo" }] } =
        .ok (true, { id := "a1", effects := [] }) :=
  ⟨by decide,
    (toggleEffectFromIdOnActor_branches "e1" true false false
      { id := "a1", effects := [{ id := "e1", label := "foo" }] }
      { id := "e1", label := "foo" } (by decide)).1 rfl⟩

/-- C5: each name/id removal operation returns undefined, passes nothing to
the host delete API, and leaves the effects unchanged when nothing matches
(or the id is empty); when a match exists, exactly that document's id is
passed to the delete API and the removed document is returned. -/
theorem removeOps_guarded (env : Env) (name effectId : String) (st : ActorState) :
    (st.effects.find? (fun e => e.label == name) = none →
      removeEffect name st = { result := none, state := st })
    ∧ (∀ ae, (st.effects.map (fun e => e.id)).Nodup →
        st.effects.find? (fun e => e.label == name) = some ae →
        removeEffect name st =
          { result := some ae,
            state := { st with effects := st.effects.filter (fun e => !(e.id == ae.id)) },
            deletedIds := [ae.id] })
    ∧ (st.effects.find? (fun e => e.label == localizeIfTruthy env name) = none →
        removeEffectOnActor env name st = { result := none, state := st })
    ∧ (∀ ae, (st.effects.map (fun e => e.id)).Nodup →
        st.effects.find? (fun e => e.label == localizeIfTruthy env name) = some ae →
        removeEffectOnActor env name st =
          { result := some ae,
            state := { st with effects := st.effects.filter (fun e => !(e.id == ae.id)) },
            deletedIds := [ae.id] })
    ∧ (removeEffectFromIdOnActor "" st = { result := none, state := st })
    ∧ (effectId ≠ "" → st.effects.find? (fun e => e.id == effectId) = none →
        removeEffectFromIdOnActor effectId st = { result := none, state := st })
    ∧ (∀ ae, effectId ≠ "" → (st.effects.map (fun e => e.id)).Nodup →
        st.effects.find? (fun e => e.id == effectId) = some ae →
        removeEffectFromIdOnActor effectId st =
          { result := some ae,
            state := { st with effects := st.effects.filter (fun e => !(e.id == ae.id)) },
            deletedIds := [ae.id] }) := by
  refine ⟨?_, ?_, ?_, ?_, ?_, ?_, ?_⟩
  · intro hnone
    simp only [removeEffect, hnone]
  · intro ae hn hfind
    have hmem := List.mem_of_find?_eq_some hfind
    simp only [removeEffect, hfind, deleteEmbedded_single st ae hn hmem,
      List.head?_cons]
  · intro hnone
    simp only [removeEffectOnActor, hnone]
  · intro ae hn hfind
    have hmem := List.mem_of_find?_eq_some hfind
    simp only [removeEffectOnActor, hfind, deleteEmbedded_single st ae hn hmem,
      List.head?_cons]
  · simp [removeEffectFromIdOnActor]
  · intro hid hnone
    simp only [removeEffectFromIdOnActor, if_neg hid, hnone]
  · intro ae hid hn hfind
    have hmem := List.mem_of_find?_eq_some hfind
    simp only [removeEffectFromIdOnActor, if_neg hid, hfind,
      deleteEmbedded_single st ae hn hmem, List.head?_cons]

/-- Witness for C5: no "bar" effect exists on the concrete actor, so removal
returns undefined with no delete call; removing "foo" deletes exactly that
document and returns it. -/
theorem removeOps_guarded_witness :
    (([{ id := "e1", label := "foo" }] : List ActiveEffect).find?
        (fun e => e.label == "bar") = none)
    ∧ removeEffect "bar" { id := "a1", effects := [{ id := "e1", label := "foo" }] } =
        { result := none, state := { id := "a1", effects := [{ id := "e1", label := "foo" }] } }
    ∧ removeEffect "foo" { id := "a1", effects := [{ id := "e1", label := "foo" }] } =
        { result := some { id := "e1", label := "foo" },
          state := { id := "a1", effects := [] },
          deletedIds := ["e1"] } :=
  ⟨by decide,
    (removeOps_guarded idEnv "bar" ""
      { id := "a1", effects := [{ id := "e1", label := "foo" }] }).1 (by decide),
    (removeOps_guarded idEnv "foo" ""
      { id := "a1", effects := [{ id := "e1", label := "foo" }] }).2.1
      { id := "e1", label := "foo" } (by decide) (by decide)⟩

end ActiveEffectManager

namespace ActiveEffectManager

/-- C10: over any effects list, `findEffectByNameOnActor` returns the first
matching entry in iteration order (the head of the filtered list), while
`_findEffectByName` returns the value-object conversion of the last matching
entry (the tail of the filtered list), each with its own match key (the
former localizes the requested name, the latter does not). -/
theorem findEffect_first_vs_last (env : Env) (n : String)
    (effects : List ActiveEffect) (hn : n ≠ "") :
    (localizeIfTruthy env n ≠ "" →
      findEffectByNameOnActor env n effects
        = (effects.filter (matchesActorName (localizeIfTruthy env n))).head?)
    ∧ _findEffectByName n effects
        = ((effects.filter (matchesActorName n)).getLast?).map
            convertActiveEffectToEffect := by
  constructor
  · intro hln
    simp only [findEffectByNameOnActor]
    rw [if_neg hln, find?_eq_head?_filter]
  · rw [_findEffectByName, if_neg hn,
      foldl_overwrite (matchesActorName n) convertActiveEffectToEffect effects none]
    cases hg : (effects.filter (matchesActorName n)).getLast? with
    | none => rfl
    | some e => rfl

/-- Witness for C10: with two case-insensitive matches for "foo", the
first-match search returns the first document while the raw search converts
the second. -/
theorem findEffect_first_vs_last_witness :
    ("foo" ≠ "") ∧ (localizeIfTruthy idEnv "foo" ≠ "")
    ∧ findEffectByNameOnActor idEnv "foo"
        [{ id := "e1", label := "foo" }, { id := "e2", label := "Foo" }]
      = (([{ id := "e1", label := "foo" }, { id := "e2", label := "Foo" }] :
          List ActiveEffect).filter (matchesActorName (localizeIfTruthy idEnv "foo"))).head?
    ∧ _findEffectByName "foo"
        [{ id := "e1", label := "foo" }, { id := "e2", label := "Foo" }]
      = ((([{ id := "e1", label := "foo" }, { id := "e2", label := "Foo" }] :
          List ActiveEffect).filter (matchesActorName "foo")).getLast?).map
            convertActiveEffectToEffect :=
  ⟨by decide, by decide,
    (findEffect_first_vs_last idEnv "foo"
      [{ id := "e1", label := "foo" }, { id := "e2", label := "Foo" }]
      (by decide)).1 (by decide),
    (findEffect_first_vs_last idEnv "foo"
      [{ id := "e1", label := "foo" }, { id := "e2", label := "Foo" }]
      (by decide)).2⟩

/-- C4 (amended): actor-side name matching is case-insensitive for
`hasEffectAppliedOnActor` (the decision depends only on the lowercase forms
of the stored label and the localized requested name) and for
`findEffectByNameOnActor` (likewise on the entry's display name), but
`removeEffectOnActor` matches the stored label by exact (case-sensitive)
string equality against the localized requested name. -/
theorem nameMatching_insensitivity (env : Env) (n : String)
    (effects : List ActiveEffect) (inc : Bool) (st : ActorState) :
    (hasEffectAppliedOnActor env n effects inc
      = effects.any (fun e =>
          (lowerStr e.label == lowerStr (localizeIfTruthy env n)) && (inc || !e.disabled)))
    ∧ (n ≠ "" → localizeIfTruthy env n ≠ "" →
        findEffectByNameOnActor env n effects
          = effects.find? (fun e =>
              effectNameOf e != ""
                && (lowerStr (effectNameOf e) == lowerStr (localizeIfTruthy env n))))
    ∧ ((removeEffectOnActor env n st).result.isSome = true ↔
        ∃ e ∈ st.effects, e.label = localizeIfTruthy env n) := by
  refine ⟨?_, ?_, ?_⟩
  · induction effects with
    | nil => rfl
    | cons x xs ih =>
        simp only [hasEffectAppliedOnActor, List.any_cons] at ih ⊢
        rw [ih]
        cases inc with
        | true => simp [isStringEquals]
        | false => simp [isStringEquals]
  · intro _ hln
    simp only [findEffectByNameOnActor]
    rw [if_neg hln]
    rfl
  · cases hfind : st.effects.find? (fun e => e.label == localizeIfTruthy env n) with
    | none =>
        simp only [removeEffectOnActor, hfind]
        constructor
        · intro h
          cases h
        · rintro ⟨e, he, heq⟩
          have hall := List.find?_eq_none.mp hfind
          exact absurd (by simp [heq]) (hall e he)
    | some ae =>
        have hmem := List.mem_of_find?_eq_some hfind
        have hp := List.find?_some hfind
        simp only [removeEffectOnActor, hfind]
        constructor
        · intro _
          exact ⟨ae, hmem, by simpa using hp⟩
        · intro _
          have hmemf : ae ∈ (deleteEmbeddedDocuments [ae.id] st).1 := by
            simp only [deleteEmbeddedDocuments]
            exact List.mem_filter.mpr ⟨hmem, by simp⟩
          cases hrem : (deleteEmbeddedDocuments [ae.id] st).1 with
          | nil => rw [hrem] at hmemf; cases hmemf
          | cons r rs => simp [hrem]

/-- Counterexample for C4 as stated: the actor stores an effect labelled
"FOO"; the case-insensitive checker reports "foo" as applied, yet
`removeEffectOnActor` with "foo" finds nothing to remove (exact label
comparison) and leaves the actor unchanged. -/
theorem removeEffectOnActor_case_counterexample :
    hasEffectAppliedOnActor idEnv "foo" [{ id := "e1", label := "FOO" }] true = true
    ∧ removeEffectOnActor idEnv "foo"
        { id := "a1", effects := [{ id := "e1", label := "FOO" }] }
      = { result := none,
          state := { id := "a1", effects := [{ id := "e1", label := "FOO" }] } } :=
  ⟨by decide, by decide⟩

/-- Witness for C4 (amended) at a concrete input. -/
theorem nameMatching_insensitivity_witness :
    ("foo" ≠ "") ∧ (localizeIfTruthy idEnv "foo" ≠ "")
    ∧ findEffectByNameOnActor idEnv "foo" [{ id := "e1", label := "FOO" }]
      = ([{ id := "e1", label := "FOO" }] : List ActiveEffect).find? (fun e =>
          effectNameOf e != ""
            && (lowerStr (effectNameOf e) == lowerStr (localizeIfTruthy idEnv "foo"))) :=
  ⟨by decide, by decide,
    (nameMatching_insensitivity idEnv "foo" [{ id := "e1", label := "FOO" }] true
      { id := "a1", effects := [] }).2.1 (by decide) (by decide)⟩

end ActiveEffectManager

namespace ActiveEffectManager

/-- C1 (amended): when effect data is supplied, `addEffect` and
`addEffectOnActor` search the actor's embedded effects for one matching the
(operation-)localized effect name before creating anything, and return
undefined without calling the host create API when one is present;
consequently, for the effect name as the operation localizes it, an actor
carrying at most one matching active effect still carries at most one after
the call.  (`addEffect` called without effect data instead throws before the
check can return — see the counterexample.) -/
theorem addEffect_duplicate_guard (env : Env) (n org : String) (ov : Bool)
    (e : Effect) (st : ActorState) :
    ((findEffectByNameOnActor env n st.effects).isSome = true →
      addEffect env n (some e) org ov st = .ok { result := none, state := st })
    ∧ ((findEffectByNameOnActor env (localizeIfTruthy env n) st.effects).isSome = true →
        addEffectOnActor env n org ov (some e) st = { result := none, state := st })
    ∧ (localizeIfTruthy env n ≠ "" →
        st.effects.countP (matchesActorName (localizeIfTruthy env n)) ≤ 1 →
        ∀ cr, addEffect env n (some e) org ov st = .ok cr →
          cr.state.effects.countP (matchesActorName (localizeIfTruthy env n)) ≤ 1)
    ∧ (localizeIfTruthy env (localizeIfTruthy env n) ≠ "" →
        st.effects.countP
          (matchesActorName (localizeIfTruthy env (localizeIfTruthy env n))) ≤ 1 →
        (addEffectOnActor env n org ov (some e) st).state.effects.countP
          (matchesActorName (localizeIfTruthy env (localizeIfTruthy env n))) ≤ 1) := by
  refine ⟨?_, ?_, ?_, ?_⟩
  · intro hfound
    obtain ⟨f, hf⟩ := Option.isSome_iff_exists.mp hfound
    simp only [addEffect, addEffectCore, hf]
  · intro hfound
    obtain ⟨f, hf⟩ := Option.isSome_iff_exists.mp hfound
    simp only [addEffectOnActor, hf]
  · intro hk hcount cr hcr
    cases hfind : findEffectByNameOnActor env n st.effects with
    | some f =>
        simp only [addEffect, addEffectCore, hfind] at hcr
        cases hcr
        simpa using hcount
    | none =>
        have hfind' : st.effects.find?
            (matchesActorName (localizeIfTruthy env n)) = none := by
          have := hfind
          rw [findEffectByNameOnActor] at this
          simpa [if_neg hk] using this
        have h0 : st.effects.countP (matchesActorName (localizeIfTruthy env n)) = 0 :=
          List.countP_eq_zero.mpr (fun x hx hp =>
            (List.find?_eq_none.mp hfind' x hx) hp)
        simp only [addEffect, addEffectCore, hfind, createEmbeddedDocument] at hcr
        cases hcr
        simp only [List.countP_append, h0, Nat.zero_add]
        exact (List.countP_le_length _).trans (by simp)
  · intro hk hcount
    cases hfind : findEffectByNameOnActor env (localizeIfTruthy env n) st.effects with
    | some f =>
        simp only [addEffectOnActor, hfind]
        simpa using hcount
    | none =>
        have hfind' : st.effects.find?
            (matchesActorName (localizeIfTruthy env (localizeIfTruthy env n))) = none := by
          have := hfind
          rw [findEffectByNameOnActor] at this
          simpa [if_neg hk] using this
        have h0 : st.effects.countP
            (matchesActorName (localizeIfTruthy env (localizeIfTruthy env n))) = 0 :=
          List.countP_eq_zero.mpr (fun x hx hp =>
            (List.find?_eq_none.mp hfind' x hx) hp)
        simp only [addEffectOnActor, hfind, createEmbeddedDocument]
        simp only [List.countP_append, h0, Nat.zero_add]
        exact (List.countP_le_length _).trans (by simp)

/-- Counterexample for C1 as stated: an active effect named "foo" is already
present on the actor, yet `addEffect` invoked without effect data — exactly
how `toggleEffect` invokes it — throws a TypeError (dereferencing the
missing `effectData`) instead of returning undefined. -/
theorem addEffect_missing_data_counterexample :
    (findEffectByNameOnActor idEnv "foo" [{ id := "e1", label := "foo" }]).isSome = true
    ∧ addEffect idEnv "foo" none "" false
        { id := "a1", effects := [{ id := "e1", label := "foo" }] } = .error .typeError :=
  ⟨by decide, rfl⟩

/-- Witness for C1 (amended): with the duplicate "foo" present and effect
data supplied, both add operations return undefined and do not create. -/
theorem addEffect_duplicate_guard_witness :
    (findEffectByNameOnActor idEnv "foo" [{ id := "e1", label := "foo" }]).isSome = true
    ∧ addEffect idEnv "foo" (some { name := "foo" }) "" false
        { id := "a1", effects := [{ id := "e1", label := "foo" }] } =
        .ok { result := none,
              state := { id := "a1", effects := [{ id := "e1", label := "foo" }] } } :=
  ⟨by decide,
    (addEffect_duplicate_guard idEnv "foo" "" false { name := "foo" }
      { id := "a1", effects := [{ id := "e1", label := "foo" }] }).1 (by decide)⟩

/-- C9: in the same duplicate situation — an active effect matching the
localized name already stored — `addEffectOnToken` returns the already
present document and creates nothing, while `addEffectOnActor` returns
undefined (and also creates nothing). -/
theorem addEffectOnToken_vs_actor_duplicate (env : Env) (n org : String)
    (ov : Bool) (e : Effect) (tst : TokenState) (st : ActorState)
    (f g : ActiveEffect) :
    (findEffectByNameOnToken env (localizeIfTruthy env n) tst.actor.effects = some f →
      addEffectOnToken env n org ov (some e) tst = { result := some f, state := tst.actor })
    ∧ (findEffectByNameOnActor env (localizeIfTruthy env n) st.effects = some g →
        addEffectOnActor env n org ov (some e) st = { result := none, state := st }) := by
  constructor
  · intro hf
    simp only [addEffectOnToken, hf]
  · intro hg
    simp only [addEffectOnActor, hg]

/-- Witness for C9: the duplicate "foo" is present on both the token's actor
and the plain actor; the token variant returns the stored document, the
actor variant returns undefined; neither creates. -/
theorem addEffectOnToken_vs_actor_duplicate_witness :
    (findEffectByNameOnToken idEnv (localizeIfTruthy idEnv "foo")
        [{ id := "e1", label := "foo" }] = some { id := "e1", label := "foo" })
    ∧ (findEffectByNameOnActor idEnv (localizeIfTruthy idEnv "foo")
        [{ id := "e1", label := "foo" }] = some { id := "e1", label := "foo" })
    ∧ addEffectOnToken idEnv "foo" "" false (some { name := "foo" })
        { tokenId := "t1", sceneId := "s1",
          actor := { id := "a1", effects := [{ id := "e1", label := "foo" }] } } =
        { result := some { id := "e1", label := "foo" },
          state := TokenState.actor
            { tokenId := "t1", sceneId := "s1",
              actor := { id := "a1", effects := [{ id := "e1", label := "foo" }] } } }
    ∧ addEffectOnActor idEnv "foo" "" false (some { name := "foo" })
        { id := "a1", effects := [{ id := "e1", label := "foo" }] } =
        { result := none,
          state := { id := "a1", effects := [{ id := "e1", label := "foo" }] } } :=
  ⟨by decide, by decide,
    (addEffectOnToken_vs_actor_duplicate idEnv "foo" "" false { name := "foo" }
      { tokenId := "t1", sceneId := "s1",
        actor := { id := "a1", effects := [{ id := "e1", label := "foo" }] } }
      { id := "a1", effects := [{ id := "e1", label := "foo" }] }
      { id := "e1", label := "foo" } { id := "e1", label := "foo" }).1 (by decide),
    (addEffectOnToken_vs_actor_duplicate idEnv "foo" "" false { name := "foo" }
      { tokenId := "t1", sceneId := "s1",
        actor := { id := "a1", effects := [{ id := "e1", label := "foo" }] } }
      { id := "a1", effects := [{ id := "e1", label := "foo" }] }
      { id := "e1", label := "foo" } { id := "e1", label := "foo" }).2 (by decide)⟩

end ActiveEffectManager

namespace ActiveEffectManager

theorem lookup_updateWorld_isSome (u v : String) (st : ActorState) (w : World) :
    ((updateWorld w u st).lookup v).isSome = (w.lookup v).isSome := by
  induction w with
  | nil => rfl
  | cons p rest ih =>
      obtain ⟨k, s⟩ := p
      simp only [updateWorld, List.map_cons] at ih ⊢
      by_cases hk : (k == u) = true
      · rw [if_pos hk]
        have hku : k = u := by simpa using hk
        subst hku
        rw [List.lookup_cons, List.lookup_cons]
        cases hv : v == k
        · simpa using ih
        · simp
      · rw [if_neg hk]
        rw [List.lookup_cons, List.lookup_cons]
        cases hv : v == k
        · simpa using ih
        · simp

theorem toggleEffect_cons (env : Env) (n : String) (ov : Bool)
    (ed : Option Effect) (u : String) (rest : List String) (w : World)
    (st : ActorState) (hst : w.lookup u = some st) :
    toggleEffect env n ov (u :: rest) ed w =
      if hasEffectApplied n st.effects then
        toggleEffect env n ov rest ed (updateWorld w u (removeEffect n st).state)
      else
        match addEffect env n ed ("Actor." ++ st.id) ov st with
        | .error err => .error err
        | .ok cr => toggleEffect env n ov rest ed (updateWorld w u cr.state) := by
  rw [toggleEffect, hst]

/-- C2 (amended): with effect data supplied and every uuid resolvable,
`toggleEffect` processes each uuid in order: when `hasEffectApplied` holds
it runs `removeEffect` (which removes the first effect whose label is
strictly equal to the raw name, if any), otherwise it runs the add path,
which creates a document only when no effect — enabled or disabled — matches
the localized name and otherwise leaves the actor unchanged; afterwards it
returns true. -/
theorem toggleEffect_spec (env : Env) (n : String) (ov : Bool) (ed : Effect)
    (uuids : List String) (w : World)
    (hres : ∀ u ∈ uuids, (w.lookup u).isSome = true) :
    toggleEffect env n ov uuids (some ed) w
      = .ok (true, toggleFold env n ov ed uuids w)
    ∧ ∀ st : ActorState,
        (hasEffectApplied n st.effects = true →
          toggleStep env n ov ed st = (removeEffect n st).state)
      ∧ (hasEffectApplied n st.effects = false →
          (findEffectByNameOnActor env n st.effects).isSome = true →
          toggleStep env n ov ed st = st)
      ∧ (hasEffectApplied n st.effects = false →
          findEffectByNameOnActor env n st.effects = none →
          ∃ doc, (toggleStep env n ov ed st).effects = st.effects ++ [doc]) := by
  constructor
  · induction uuids generalizing w with
    | nil => rfl
    | cons u rest ih =>
        obtain ⟨st, hst⟩ :=
          Option.isSome_iff_exists.mp (hres u (List.mem_cons_self u rest))
        have hres' : ∀ x ∈ rest, (w.lookup x).isSome = true := fun x hx =>
          hres x (List.mem_cons_of_mem u hx)
        rw [toggleEffect_cons env n ov (some ed) u rest w st hst]
        have hfold : toggleFold env n ov ed (u :: rest) w
            = toggleFold env n ov ed rest
                (updateWorld w u (toggleStep env n ov ed st)) := by
          simp only [toggleFold, List.foldl_cons, hst]
        rw [hfold]
        cases happ : hasEffectApplied n st.effects with
        | true =>
            rw [if_pos rfl]
            have hstep : toggleStep env n ov ed st = (removeEffect n st).state := by
              rw [toggleStep, if_pos happ]
            rw [hstep]
            exact ih (updateWorld w u (removeEffect n st).state)
              (fun x hx => by
                rw [lookup_updateWorld_isSome]
                exact hres' x hx)
        | false =>
            rw [if_neg Bool.false_ne_true]
            have hstep : toggleStep env n ov ed st
                = (addEffectCore env n ed ("Actor." ++ st.id) ov st).state := by
              rw [toggleStep, if_neg (by simp [happ])]
            rw [hstep]
            simp only [addEffect]
            exact ih
              (updateWorld w u (addEffectCore env n ed ("Actor." ++ st.id) ov st).state)
              (fun x hx => by
                rw [lookup_updateWorld_isSome]
                exact hres' x hx)
  · intro st
    refine ⟨?_, ?_, ?_⟩
    · intro happ
      rw [toggleStep, if_pos happ]
    · intro happ hfound
      obtain ⟨f, hf⟩ := Option.isSome_iff_exists.mp hfound
      rw [toggleStep, if_neg (by simp [happ])]
      simp only [addEffectCore, hf]
    · intro happ hnone
      rw [toggleStep, if_neg (by simp [happ])]
      simp only [addEffectCore, hnone, createEmbeddedDocument]
      exact ⟨_, rfl⟩

/-- Counterexample for C2 as stated: actor u1 stores a disabled "foo"
(reported not applied, so the claim demands an add) and actor u2 stores an
enabled "FOO" (reported applied case-insensitively, so the claim demands a
removal); `toggleEffect` returns true yet leaves both actors unchanged —
the add is refused by the duplicate check and the removal's exact label
comparison finds nothing. -/
theorem toggleEffect_counterexample :
    hasEffectApplied "foo" [{ id := "e1", label := "foo", disabled := true }] = false
    ∧ hasEffectApplied "foo" [{ id := "e2", label := "FOO" }] = true
    ∧ toggleEffect idEnv "foo" false ["u1", "u2"] (some { name := "foo" })
        [("u1", { id := "a1", effects := [{ id := "e1", label := "foo", disabled := true }] }),
         ("u2", { id := "a2", effects := [{ id := "e2", label := "FOO" }] })]
      = .ok (true,
        [("u1", { id := "a1", effects := [{ id := "e1", label := "foo", disabled := true }] }),
         ("u2", { id := "a2", effects := [{ id := "e2", label := "FOO" }] })]) :=
  ⟨by decide, by decide, rfl⟩

/-- Witness for C2 (amended): one resolvable uuid, an empty actor; the toggle
adds and returns true, matching the fold of `toggleStep`. -/
theorem toggleEffect_spec_witness :
    ((([("u1", { id := "a1", effects := [] })] : World).lookup "u1").isSome = true)
    ∧ toggleEffect idEnv "x" false ["u1"] (some { name := "x" })
        [("u1", { id := "a1", effects := [] })]
      = .ok (true, toggleFold idEnv "x" false { name := "x" } ["u1"]
          [("u1", { id := "a1", effects := [] })]) :=
  ⟨by decide,
    (toggleEffect_spec idEnv "x" false { name := "x" } ["u1"]
      [("u1", { id := "a1", effects := [] })]
      (by intro u hu; cases hu with
        | head => decide
        | tail _ h => cases h)).1⟩

end ActiveEffectManager

namespace ActiveEffectManager

theorem removeEffectW_no_errorMsg (n u : String) (w : World) (s : String) :
    removeEffectW n u w ≠ .error (.errorMsg s) := by
  rw [removeEffectW]
  cases hl : w.lookup u with
  | none =>
      intro h
      exact JSError.noConfusion (Except.error.inj h)
  | some st =>
      intro h
      exact Except.noConfusion h

theorem toggleEffect_no_errorMsg (env : Env) (n : String) (ov : Bool)
    (ed : Option Effect) (s : String) :
    ∀ (uuids : List String) (w : World),
      toggleEffect env n ov uuids ed w ≠ .error (.errorMsg s) := by
  intro uuids
  induction uuids with
  | nil =>
      intro w h
      exact Except.noConfusion h
  | cons u rest ih =>
      intro w
      cases hl : w.lookup u with
      | none =>
          rw [toggleEffect, hl]
          intro h
          exact JSError.noConfusion (Except.error.inj h)
      | some st =>
          rw [toggleEffect_cons env n ov ed u rest w st hl]
          by_cases happ : hasEffectApplied n st.effects = true
          · rw [if_pos happ]
            exact ih _
          · rw [if_neg happ]
            cases ed with
            | none =>
                intro h
                exact JSError.noConfusion (Except.error.inj h)
            | some e =>
                exact ih _

/-- C8: each positional-array legacy shim returns exactly the base method
applied to the destructured elements of its argument array, and its
"inAttributes must be of type array" error branch is unreachable: a rest
parameter is always an array, so `Array.isArray` holds on every argument
list and no call can produce that error. -/
theorem arrShims_equiv (env : Env) (n u : String) (ov : Bool)
    (us : List String) (m : JSVal) (ed : Effect) (w : World) :
    (toggleEffectArr env
        [JSVal.vStr n, JSVal.vBool ov, JSVal.vStrList us, m, JSVal.vEffect ed] w
      = some (toggleEffect env n ov us (some ed) w))
    ∧ (removeEffectArr [JSVal.vStr n, JSVal.vStr u] w = some (removeEffectW n u w))
    ∧ (∀ args, jsIsArray args = true)
    ∧ (∀ args, toggleEffectArr env args w
        ≠ some (.error (.errorMsg "toggleEffectArr | inAttributes must be of type array")))
    ∧ (∀ args, removeEffectArr args w
        ≠ some (.error (.errorMsg "removeEffectArr | inAttributes must be of type array"))) := by
  refine ⟨rfl, rfl, fun _ => rfl, ?_, ?_⟩
  · intro args
    unfold toggleEffectArr
    split
    · split
      · intro h
        rw [Option.some.injEq] at h
        exact toggleEffect_no_errorMsg env _ _ (some _) _ _ _ h
      · intro h
        rw [Option.some.injEq] at h
        exact toggleEffect_no_errorMsg env _ _ none _ _ _ h
      · intro h
        exact Option.noConfusion h
    · rename_i hfalse
      exact absurd rfl hfalse
  · intro args
    unfold removeEffectArr
    split
    · split
      · intro h
        rw [Option.some.injEq] at h
        exact removeEffectW_no_errorMsg _ _ _ _ h
      · intro h
        exact Option.noConfusion h
    · rename_i hfalse
      exact absurd rfl hfalse

/-- Witness for C8: the toggle shim on a concrete five-element argument
array equals the base toggle call on the destructured elements. -/
theorem arrShims_equiv_witness :
    toggleEffectArr idEnv
        [JSVal.vStr "x", JSVal.vBool false, JSVal.vStrList ["u1"], JSVal.vUndef,
          JSVal.vEffect { name := "x" }]
        [("u1", { id := "a1", effects := [] })]
      = some (toggleEffect idEnv "x" false ["u1"] (some { name := "x" })
          [("u1", { id := "a1", effects := [] })]) :=
  (arrShims_equiv idEnv "x" "u" false ["u1"] JSVal.vUndef { name := "x" }
    [("u1", { id := "a1", effects := [] })]).1

end ActiveEffectManager
